import Mathlib

/-!
Verification of `fix_bold_spacing.py`, a one-shot markdown normalizer.

The program consists of
  * a single regular-expression substitution
    `re.sub(r'\*\* ([A-Za-z][^\*]+:\*\*)', r'**\1', content)` applied to the
    full text of a file,
  * a per-file step `fix_bold_spacing` that reads a file, applies the
    substitution, writes the result back only when it changed, and catches any
    per-file error, and
  * a driver `main` that walks all `*.md` files, skips paths containing the
    substring `node_modules`, counts the files actually modified, prints a
    confirmation per modified file and a final summary.

The text transformation is embedded as a total function on `List Char`
(Python strings are sequences of code points).  The regex
`\*\* ([A-Za-z][^\*]+:\*\*)` matches, at a given position: `**`, a space, an
ASCII letter, a non-empty run of non-asterisk characters, a colon, and `**`.
Because the character class `[^\*]` cannot cross an asterisk and the colon
must be followed immediately by `**`, the extent of a match at a position is
uniquely determined: after the letter, take the maximal run of non-asterisk
characters; the run must have length at least two, end in a colon, and be
followed by two asterisks.  `re.sub` scans left to right, replaces each
non-overlapping match and resumes scanning right after the replaced text;
the replacement `**\1` deletes exactly the space.
-/

/-- ASCII letter test, the embedding of the regex class `[A-Za-z]`. -/
def isAsciiLetter (c : Char) : Bool :=
  ('A' ≤ c && c ≤ 'Z') || ('a' ≤ c && c ≤ 'z')

/-- Attempt to match the pattern `\*\* ([A-Za-z][^\*]+:\*\*)` at the head of
the text.  On success, return the replacement text `**\1` (the match with the
space deleted) together with the text following the match. -/
def matchBold (cs : List Char) : Option (List Char × List Char) :=
  match cs with
  | a :: b :: sp :: d :: rest =>
    if a = '*' ∧ b = '*' ∧ sp = ' ' ∧ isAsciiLetter d = true then
      if 2 ≤ (rest.takeWhile (fun x => x != '*')).length ∧
          (rest.takeWhile (fun x => x != '*')).getLast? = some ':' ∧
          (rest.dropWhile (fun x => x != '*')).take 2 = ['*', '*'] then
        some ('*' :: '*' :: d :: (rest.takeWhile (fun x => x != '*') ++ ['*', '*']),
          (rest.dropWhile (fun x => x != '*')).drop 2)
      else none
    else none
  | _ => none

/-- Left-to-right scan of `re.sub`, structurally recursive on a fuel
argument.  At each position, if the pattern matches, emit the replacement and
resume after the matched text; otherwise emit one character and move on. -/
def fixBoldAux : Nat → List Char → List Char
  | 0, s => s
  | _ + 1, [] => []
  | fuel + 1, c :: cs =>
    match matchBold (c :: cs) with
    | some (rep, rest) => rep ++ fixBoldAux fuel rest
    | none => c :: fixBoldAux fuel cs

/-- The substitution rule
`content = re.sub(r'\*\* ([A-Za-z][^\*]+:\*\*)', r'**\1', content)`
as a total function on character lists.  A fuel of `s.length` always
suffices because every step consumes at least one character. -/
def fixBold (s : List Char) : List Char :=
  fixBoldAux s.length s

/-- The substitution rule on Lean strings. -/
def substituteBold (s : String) : String :=
  ⟨fixBold s.data⟩

/-- `True` when some position of the text matches the defect pattern, i.e.
when `re.sub` would replace something. -/
def hasDefect : List Char → Bool
  | [] => false
  | c :: cs => (matchBold (c :: cs)).isSome || hasDefect cs

/-- One rewriting pass, described generatively: the output text is the input
text with, at each qualifying site `** ` + letter + label + `**` (label a run
of at least two non-asterisk characters ending in a colon), exactly the
single space after the opening marker deleted and everything else kept
verbatim, in order. -/
inductive BoldRw : List Char → List Char → Prop where
  | nil : BoldRw [] []
  | keep (c : Char) {s t : List Char} : BoldRw s t → BoldRw (c :: s) (c :: t)
  | fix {c : Char} {lab s t : List Char}
      (hc : isAsciiLetter c = true)
      (hlen : 2 ≤ lab.length)
      (hstar : ∀ a ∈ lab, a ≠ '*')
      (hcolon : lab.getLast? = some ':')
      (h : BoldRw s t) :
      BoldRw ('*' :: '*' :: ' ' :: c :: (lab ++ '*' :: '*' :: s))
             ('*' :: '*' :: c :: (lab ++ '*' :: '*' :: t))

/-- Observable actions of a run: calling the per-file step on a path, opening
a file for reading, opening it for writing (the write call itself, whether or
not it completes), the `Error: path: e` diagnostic, the `✅ path` per-file
confirmation, and the final `Total fixed: n` summary line. -/
inductive Event where
  | attempt (p : List Char)
  | opened (p : List Char)
  | wrote (p : List Char)
  | errorMsg (p : List Char)
  | fixedMsg (p : List Char)
  | summary (n : Nat)
deriving DecidableEq

/-- One discovered `*.md` file together with an oracle describing how its
I/O behaves during this run: whether reading raises, whether writing raises,
and — since the tool has no partial-write protection — the content left on
disk if the write raises midway. -/
structure File where
  path : List Char
  content : List Char
  readOk : Bool
  writeOk : Bool
  failContent : List Char
deriving DecidableEq

/-- Result of the per-file step: the Python return value, the content on disk
afterwards, and the observable events in order. -/
structure FileOutcome where
  fixedFlag : Bool
  disk : List Char
  events : List Event
deriving DecidableEq

/-- The per-file step `fix_bold_spacing(file_path)`: read the text, apply the
substitution, write back only when the text changed, return `True` exactly
when a write completed; any error is caught, a diagnostic naming the file is
printed and `False` is returned. -/
def fix_bold_spacing (f : File) : FileOutcome :=
  if f.readOk = true then
    let content := fixBold f.content
    if content = f.content then
      { fixedFlag := false, disk := f.content
        events := [Event.attempt f.path, Event.opened f.path] }
    else if f.writeOk = true then
      { fixedFlag := true, disk := content
        events := [Event.attempt f.path, Event.opened f.path, Event.wrote f.path] }
    else
      { fixedFlag := false, disk := f.failContent
        events := [Event.attempt f.path, Event.opened f.path, Event.wrote f.path,
                   Event.errorMsg f.path] }
  else
    { fixedFlag := false, disk := f.content
      events := [Event.attempt f.path, Event.errorMsg f.path] }

/-- The characters of the dependency-directory marker `node_modules`. -/
def nodeModules : List Char :=
  ['n', 'o', 'd', 'e', '_', 'm', 'o', 'd', 'u', 'l', 'e', 's']

/-- `startsWith pat s` is `true` when `pat` is a prefix of `s`. -/
def startsWith : List Char → List Char → Bool
  | [], _ => true
  | _ :: _, [] => false
  | p :: ps, c :: cs => p == c && startsWith ps cs

/-- `containsSub pat s` is `true` when `pat` occurs as a contiguous substring
of `s`; this embeds Python's `pat in s` on strings. -/
def containsSub (pat : List Char) : List Char → Bool
  | [] => startsWith pat []
  | c :: cs => startsWith pat (c :: cs) || containsSub pat cs

/-- The driver's exclusion test `'node_modules' in str(md_file)`. -/
def skipFile (f : File) : Bool :=
  containsSub nodeModules f.path

/-- One iteration of the driver loop: skip excluded paths entirely;
otherwise run the per-file step, and on a `True` return contribute one to the
fixed counter and print the per-file confirmation. -/
def runFile (f : File) : Nat × List Event :=
  if skipFile f = true then (0, [])
  else
    let r := fix_bold_spacing f
    if r.fixedFlag = true then (1, r.events ++ [Event.fixedMsg f.path])
    else (0, r.events)

/-- The driver loop over the discovered file list, accumulating the fixed
counter and the events in order. -/
def mainLoop : List File → Nat × List Event
  | [] => (0, [])
  | f :: fs => ((runFile f).1 + (mainLoop fs).1, (runFile f).2 ++ (mainLoop fs).2)

/-- The whole run `main()`: the loop followed by the summary line reporting
the final counter. -/
def main_run (files : List File) : Nat × List Event :=
  ((mainLoop files).1, (mainLoop files).2 ++ [Event.summary (mainLoop files).1])

/-- The content a file holds on disk after the run. -/
def finalContent (f : File) : List Char :=
  if skipFile f = true then f.content else (fix_bold_spacing f).disk

/-- Sample file: healthy I/O, content with one defect occurrence. -/
def sampleA : File :=
  ⟨"docs/readme.md".data, "** Ab:** x".data, true, true, []⟩

/-- Sample file: healthy I/O, already-correct content. -/
def sampleB : File :=
  ⟨"docs/clean.md".data, "**Name:** value".data, true, true, []⟩

/-- Sample file: lives under a `node_modules` path component. -/
def sampleSkip : File :=
  ⟨"node_modules/pkg/readme.md".data, "** Ab:** x".data, true, true, []⟩

/-- Sample file: its path merely contains `node_modules` inside a longer
directory name. -/
def sampleBackup : File :=
  ⟨"my_node_modules_backup/notes.md".data, "** Ab:** x".data, true, true, []⟩

/-- Sample file: reading it raises an error. -/
def sampleReadErr : File :=
  ⟨"docs/locked.md".data, "** Ab:** x".data, false, true, []⟩

/-- Sample file: it needs fixing but the write raises midway, leaving a
truncated text on disk. -/
def sampleWriteErr : File :=
  ⟨"docs/truncated.md".data, "** Ab:** x".data, true, false, "** Ab".data⟩

/-- Spec scenario 2: already-correct text is unchanged. -/
theorem scenario_no_leading_space :
    substituteBold "**Name:** value" = "**Name:** value" := by decide

/-- Spec scenario 4: a label starting with a digit does not match. -/
theorem scenario_digit_label :
    substituteBold "** 1:** x" = "** 1:** x" := by decide

/-- Every element kept by `takeWhile` satisfies the predicate. -/
theorem mem_takeWhile_sat {p : Char → Bool} :
    ∀ {l : List Char} {a : Char}, a ∈ l.takeWhile p → p a = true := by
  intro l
  induction l with
  | nil => intro a h; simp [List.takeWhile] at h
  | cons x xs ih =>
    intro a h
    by_cases hx : p x = true
    · rw [List.takeWhile_cons_of_pos hx] at h
      rcases List.mem_cons.mp h with h | h
      · subst h; exact hx
      · exact ih h
    · rw [List.takeWhile_cons_of_neg (by simpa using hx)] at h
      simp at h

/-- `takeWhile` passes over a block of satisfying elements. -/
theorem takeWhile_append_all {p : Char → Bool} :
    ∀ (l₁ l₂ : List Char), (∀ a ∈ l₁, p a = true) →
      (l₁ ++ l₂).takeWhile p = l₁ ++ l₂.takeWhile p := by
  intro l₁
  induction l₁ with
  | nil => intro l₂ _; simp
  | cons x xs ih =>
    intro l₂ h
    have hx : p x = true := h x (by simp)
    simp only [List.cons_append, List.takeWhile_cons_of_pos hx]
    rw [ih l₂ (fun a ha => h a (by simp [ha]))]

/-- `dropWhile` passes over a block of satisfying elements. -/
theorem dropWhile_append_all {p : Char → Bool} :
    ∀ (l₁ l₂ : List Char), (∀ a ∈ l₁, p a = true) →
      (l₁ ++ l₂).dropWhile p = l₂.dropWhile p := by
  intro l₁
  induction l₁ with
  | nil => intro l₂ _; simp
  | cons x xs ih =>
    intro l₂ h
    have hx : p x = true := h x (by simp)
    simp only [List.cons_append, List.dropWhile_cons_of_pos hx]
    exact ih l₂ (fun a ha => h a (by simp [ha]))

/-- A list starts with itself followed by anything. -/
theorem startsWith_self_append : ∀ (pat post : List Char),
    startsWith pat (pat ++ post) = true
  | [], _ => rfl
  | p :: ps, post => by
    simp only [List.cons_append, startsWith, beq_self_eq_true, Bool.true_and]
    exact startsWith_self_append ps post

/-- The substring test accepts a prefix occurrence. -/
theorem containsSub_of_prefix (pat post : List Char) :
    containsSub pat (pat ++ post) = true := by
  cases hpp : pat ++ post with
  | nil =>
    rcases List.append_eq_nil.mp hpp with ⟨h1, h2⟩
    subst h1; subst h2
    rfl
  | cons c cs =>
    rw [containsSub, ← hpp, startsWith_self_append]
    rfl

/-- The substring test accepts an occurrence anywhere. -/
theorem containsSub_of_infix : ∀ (pre pat post : List Char),
    containsSub pat (pre ++ (pat ++ post)) = true := by
  intro pre
  induction pre with
  | nil => intro pat post; simpa using containsSub_of_prefix pat post
  | cons a pre ih =>
    intro pat post
    rw [List.cons_append, containsSub, ih pat post]
    simp

/-- Inversion of a successful match: the text decomposes as the marker, the
space, a letter, a maximal non-asterisk run of length at least two ending in
a colon, the closing marker, and the remainder; the replacement is that match
with the space deleted. -/
theorem matchBold_some {cs rep rest : List Char}
    (h : matchBold cs = some (rep, rest)) :
    ∃ d t, isAsciiLetter d = true ∧ 2 ≤ t.length ∧ (∀ a ∈ t, a ≠ '*') ∧
      t.getLast? = some ':' ∧
      cs = '*' :: '*' :: ' ' :: d :: (t ++ '*' :: '*' :: rest) ∧
      rep = '*' :: '*' :: d :: (t ++ ['*', '*']) := by
  match cs with
  | [] => simp [matchBold] at h
  | [a] => simp [matchBold] at h
  | [a, b] => simp [matchBold] at h
  | [a, b, c] => simp [matchBold] at h
  | a :: b :: sp :: d :: rest₀ =>
    rw [matchBold] at h
    split at h
    · rename_i hout
      obtain ⟨ha, hb, hsp, hd⟩ := hout
      split at h
      · rename_i hin
        obtain ⟨hlen, hcolon, htake⟩ := hin
        rw [Option.some_inj, Prod.mk.injEq] at h
        obtain ⟨hrep, hrest⟩ := h
        subst ha; subst hb; subst hsp
        have hr : rest₀.dropWhile (fun x => x != '*') = '*' :: '*' :: rest := by
          conv_lhs => rw [← List.take_append_drop 2 (rest₀.dropWhile (fun x => x != '*'))]
          rw [htake, hrest]
          rfl
        have hdec : rest₀ = rest₀.takeWhile (fun x => x != '*') ++ '*' :: '*' :: rest := by
          rw [← hr, List.takeWhile_append_dropWhile]
        refine ⟨d, rest₀.takeWhile (fun x => x != '*'), hd, hlen, ?_, hcolon, ?_, hrep.symm⟩
        · intro x hx
          have := mem_takeWhile_sat hx
          simpa using this
        · rw [← hdec]
      · exact absurd h (by simp)
    · exact absurd h (by simp)

/-- A successful match consumes at least eight characters more than it
leaves. -/
theorem matchBold_rest_length {cs rep rest : List Char}
    (h : matchBold cs = some (rep, rest)) : rest.length + 8 ≤ cs.length := by
  obtain ⟨d, t, _, hlen, _, _, hcs, _⟩ := matchBold_some h
  subst hcs
  simp only [List.length_cons, List.length_append]
  omega

/-- The scan does not depend on the fuel as long as the fuel covers the
length of the text. -/
theorem fixBoldAux_congr : ∀ (n m : Nat) (s : List Char),
    s.length ≤ n → s.length ≤ m → fixBoldAux n s = fixBoldAux m s := by
  intro n
  induction n with
  | zero =>
    intro m s hn _
    have hs : s = [] := List.eq_nil_of_length_eq_zero (Nat.le_zero.mp hn)
    subst hs
    cases m <;> rfl
  | succ n ih =>
    intro m s hn hm
    cases s with
    | nil => cases m <;> rfl
    | cons c cs =>
      cases m with
      | zero => simp at hm
      | succ m' =>
        simp only [fixBoldAux]
        cases h : matchBold (c :: cs) with
        | none =>
          have h1 : cs.length ≤ n := by simp at hn; omega
          have h2 : cs.length ≤ m' := by simp at hm; omega
          rw [ih m' cs h1 h2]
        | some pr =>
          obtain ⟨rep, rest⟩ := pr
          have hlt := matchBold_rest_length h
          have h1 : rest.length ≤ n := by simp at hlt hn; omega
          have h2 : rest.length ≤ m' := by simp at hlt hm; omega
          dsimp only
          rw [ih m' rest h1 h2]

/-- Scan equation: the empty text is unchanged. -/
theorem fixBold_nil : fixBold [] = [] := rfl

/-- Scan equation: on a match, emit the replacement and continue after the
matched text. -/
theorem fixBold_cons_some {c : Char} {cs rep rest : List Char}
    (h : matchBold (c :: cs) = some (rep, rest)) :
    fixBold (c :: cs) = rep ++ fixBold rest := by
  have hlt := matchBold_rest_length h
  have h1 : rest.length ≤ cs.length := by simp at hlt; omega
  show fixBoldAux (c :: cs).length (c :: cs) = rep ++ fixBold rest
  simp only [List.length_cons, fixBoldAux, h]
  rw [fixBoldAux_congr cs.length rest.length rest h1 (Nat.le_refl _)]
  rfl

/-- Scan equation: with no match at the head, keep one character and scan
the tail. -/
theorem fixBold_cons_none {c : Char} {cs : List Char}
    (h : matchBold (c :: cs) = none) :
    fixBold (c :: cs) = c :: fixBold cs := by
  show fixBoldAux (c :: cs).length (c :: cs) = c :: fixBold cs
  simp only [List.length_cons, fixBoldAux, h]
  rfl

/-- The scan realizes the generative description: its output is derivable
from its input by the one-pass rewriting relation. -/
theorem boldRw_fixBold (s : List Char) : BoldRw s (fixBold s) := by
  have key : ∀ (n : Nat) (s : List Char), s.length ≤ n → BoldRw s (fixBold s) := by
    intro n
    induction n with
    | zero =>
      intro s hn
      have hs : s = [] := List.eq_nil_of_length_eq_zero (Nat.le_zero.mp hn)
      subst hs
      rw [fixBold_nil]
      exact BoldRw.nil
    | succ n ih =>
      intro s hn
      cases s with
      | nil => rw [fixBold_nil]; exact BoldRw.nil
      | cons c cs =>
        cases h : matchBold (c :: cs) with
        | none =>
          rw [fixBold_cons_none h]
          exact BoldRw.keep c (ih cs (by simp at hn; omega))
        | some pr =>
          obtain ⟨rep, rest⟩ := pr
          have hlt := matchBold_rest_length h
          obtain ⟨d, t, hd, hlen, hstar, hcolon, hcs, hrep⟩ := matchBold_some h
          rw [fixBold_cons_some h, hrep, hcs]
          have hrw : BoldRw rest (fixBold rest) := by
            apply ih
            simp only [List.length_cons] at hn hlt
            omega
          have goal := BoldRw.fix hd hlen hstar hcolon hrw
          simpa [List.append_assoc] using goal
  exact key s.length s (Nat.le_refl _)

/-- The rewriting relation only ever deletes characters: its output is a
sublist (subsequence) of its input. -/
theorem boldRw_sublist {s t : List Char} (h : BoldRw s t) : t.Sublist s := by
  induction h with
  | nil => exact List.Sublist.refl []
  | keep c _ ih => exact ih.cons₂ c
  | fix _ _ _ _ _ ih =>
    refine List.Sublist.cons₂ _ (List.Sublist.cons₂ _ (List.Sublist.cons _
      (List.Sublist.cons₂ _ ?_)))
    exact List.Sublist.append_left ((ih.cons₂ '*').cons₂ '*') _

/-- The scan never lengthens the text. -/
theorem fixBold_length_le (s : List Char) : (fixBold s).length ≤ s.length :=
  (boldRw_sublist (boldRw_fixBold s)).length_le

/-- If some position matches the defect pattern, the scan strictly shortens
the text (each replacement deletes a space). -/
theorem fixBold_length_lt {s : List Char} (h : hasDefect s = true) :
    (fixBold s).length < s.length := by
  induction s with
  | nil => simp [hasDefect] at h
  | cons c cs ih =>
    cases hm : matchBold (c :: cs) with
    | some pr =>
      obtain ⟨rep, rest⟩ := pr
      obtain ⟨d, t, _, hlen, _, _, hcs, hrep⟩ := matchBold_some hm
      have h1 : (fixBold rest).length ≤ rest.length := fixBold_length_le rest
      rw [fixBold_cons_some hm, hrep]
      have h2 : (c :: cs).length = t.length + 6 + rest.length := by
        rw [hcs]; simp [List.length_append]; omega
      simp only [List.length_append, List.length_cons, h2]
      simp at h1 ⊢
      omega
    | none =>
      have h' : hasDefect cs = true := by
        rw [hasDefect, hm] at h
        simpa using h
      rw [fixBold_cons_none hm]
      simpa using ih h'

/-- Computation of the matcher at a textual occurrence of the pattern: a
letter, a non-empty non-asterisk block, a colon and the closing marker. -/
theorem matchBold_shape (c : Char) (lab suffix : List Char)
    (hc : isAsciiLetter c = true) (hne : lab ≠ []) (hstar : ∀ a ∈ lab, a ≠ '*') :
    matchBold ('*' :: '*' :: ' ' :: c :: (lab ++ ':' :: '*' :: '*' :: suffix)) =
      some ('*' :: '*' :: c :: ((lab ++ [':']) ++ ['*', '*']), suffix) := by
  have hall : ∀ a ∈ lab ++ [':'], (fun x => x != '*') a = true := by
    intro a ha
    rcases List.mem_append.mp ha with h | h
    · simpa using hstar a h
    · simp at h; subst h; rfl
  have hsplit : lab ++ ':' :: '*' :: '*' :: suffix =
      (lab ++ [':']) ++ '*' :: '*' :: suffix := by simp
  have ht : (lab ++ ':' :: '*' :: '*' :: suffix).takeWhile (fun x => x != '*') =
      lab ++ [':'] := by
    rw [hsplit, takeWhile_append_all (lab ++ [':']) _ hall]
    simp [List.takeWhile_cons]
  have hr : (lab ++ ':' :: '*' :: '*' :: suffix).dropWhile (fun x => x != '*') =
      '*' :: '*' :: suffix := by
    rw [hsplit, dropWhile_append_all (lab ++ [':']) _ hall]
    simp [List.dropWhile_cons]
  have hlen2 : 2 ≤ (lab ++ [':']).length := by
    have := List.length_pos.mpr hne
    simp only [List.length_append, List.length_cons, List.length_nil]
    omega
  rw [matchBold, ht, hr]
  rw [if_pos ⟨rfl, rfl, rfl, hc⟩]
  rw [if_pos ⟨hlen2, List.getLast?_concat _, rfl⟩]
  rfl

/-- If no position matches the defect pattern, the scan is the identity. -/
theorem fixBold_eq_of_no_defect {s : List Char} (h : hasDefect s = false) :
    fixBold s = s := by
  induction s with
  | nil => exact fixBold_nil
  | cons c cs ih =>
    rw [hasDefect, Bool.or_eq_false_iff] at h
    obtain ⟨h1, h2⟩ := h
    have hm : matchBold (c :: cs) = none := by
      cases hmm : matchBold (c :: cs) with
      | none => rfl
      | some pr => rw [hmm] at h1; simp at h1
    rw [fixBold_cons_none hm, ih h2]

/-- Claim C1, counterexample: applying the substitution rule twice is not
the same as applying it once.  On `"** Ab:** Cd:**"` the first pass corrects
the first occurrence only (the second overlaps the first match's closing
marker, and `re.sub` resumes scanning after the match), producing
`"**Ab:** Cd:**"`; a second pass then corrects the occurrence that the
deletion brought into existence, producing `"**Ab:**Cd:**"`. -/
theorem substituteBold_not_idempotent :
    substituteBold (substituteBold "** Ab:** Cd:**") ≠
      substituteBold "** Ab:** Cd:**" := by decide

/-- Claim C1 (amended): the substitution rule leaves a text unchanged exactly
when the text contains no occurrence of the defect pattern; in particular the
rule is a no-op on defect-free text.  (Full idempotence fails: a replacement
can create a new qualifying occurrence, see the counterexample.) -/
theorem fixBold_eq_self_iff_no_defect (s : List Char) :
    fixBold s = s ↔ hasDefect s = false := by
  constructor
  · intro h
    cases hd : hasDefect s with
    | false => rfl
    | true =>
      have hlt := fixBold_length_lt hd
      rw [h] at hlt
      omega
  · exact fixBold_eq_of_no_defect

/-- Claim C2, counterexample: on `"** A:** x ** B:** y"` the substitution
does not produce `"**A:** x **B:** y"`: the regex requires at least one
non-asterisk character between the leading letter and the colon, so a
single-letter label never matches. -/
theorem substituteBold_single_letter_pair_unchanged :
    substituteBold "** A:** x ** B:** y" ≠ "**A:** x **B:** y" := by decide

/-- Claim C2 (amended): applying the substitution rule to
`"** A:** x ** B:** y"` returns the input unchanged, because a single-letter
label does not match the pattern; with labels of at least two characters both
occurrences on one line are corrected in one pass, e.g.
`"** Ab:** x ** Cd:** y"` becomes `"**Ab:** x **Cd:** y"`. -/
theorem substituteBold_pair_scenarios :
    substituteBold "** A:** x ** B:** y" = "** A:** x ** B:** y"
    ∧ substituteBold "** Ab:** x ** Cd:** y" = "**Ab:** x **Cd:** y" :=
  ⟨by decide, by decide⟩

/-- Claim C3: at every occurrence of the defect pattern — opening marker,
one space, a letter, one or more non-asterisk characters, a colon, closing
marker — the substitution removes exactly the single space after the opening
marker and keeps the label (letter, inner characters and trailing colon)
verbatim, while the text after the match is processed independently; in
particular `"** Name:** value"` becomes `"**Name:** value"`. -/
theorem fixBold_removes_exactly_the_space :
    (∀ (c : Char) (lab suffix : List Char), isAsciiLetter c = true → lab ≠ [] →
        (∀ a ∈ lab, a ≠ '*') →
        fixBold ('*' :: '*' :: ' ' :: c :: (lab ++ ':' :: '*' :: '*' :: suffix)) =
          '*' :: '*' :: c :: (lab ++ ':' :: '*' :: '*' :: fixBold suffix))
    ∧ substituteBold "** Name:** value" = "**Name:** value" := by
  constructor
  · intro c lab suffix hc hne hstar
    have hm := matchBold_shape c lab suffix hc hne hstar
    rw [fixBold_cons_some hm]
    simp [List.append_assoc]
  · decide

/-- Claim C3, witness: the general statement applied at the occurrence
`"** Name:**"` followed by `" v"`. -/
theorem fixBold_removes_exactly_the_space_witness :
    fixBold ('*' :: '*' :: ' ' :: 'N' ::
        (['a', 'm', 'e'] ++ ':' :: '*' :: '*' :: (' ' :: 'v' :: []))) =
      '*' :: '*' :: 'N' ::
        (['a', 'm', 'e'] ++ ':' :: '*' :: '*' :: fixBold (' ' :: 'v' :: [])) :=
  fixBold_removes_exactly_the_space.1 'N' ['a', 'm', 'e'] (' ' :: 'v' :: [])
    (by decide) (by decide) (by decide)

/-- Claim C4: the output of the substitution rule is obtained from the input
only by deleting the space after qualifying opening bold markers: the
rewriting derivation `BoldRw` deletes exactly those spaces and copies every
other character in order, and consequently the output is a subsequence of
the input. -/
theorem fixBold_locality (s : List Char) :
    BoldRw s (fixBold s) ∧ (fixBold s).Sublist s :=
  ⟨boldRw_fixBold s, boldRw_sublist (boldRw_fixBold s)⟩

/-- Claim C5: for a file whose read succeeds, the per-file step opens the
file for writing exactly when the transformed text differs from the
original; when the text is unchanged no write happens and the disk content
is untouched, and when it changed and the write succeeds the disk holds the
transformed text. -/
theorem fix_bold_spacing_writes_iff_changed (f : File) (h : f.readOk = true) :
    (Event.wrote f.path ∈ (fix_bold_spacing f).events ↔ fixBold f.content ≠ f.content)
    ∧ (fixBold f.content = f.content →
        (fix_bold_spacing f).disk = f.content
        ∧ Event.wrote f.path ∉ (fix_bold_spacing f).events)
    ∧ (fixBold f.content ≠ f.content → f.writeOk = true →
        (fix_bold_spacing f).disk = fixBold f.content) := by
  by_cases hc : fixBold f.content = f.content
  · simp [fix_bold_spacing, h, hc]
  · by_cases hw : f.writeOk = true
    · simp [fix_bold_spacing, h, hc, hw]
    · simp [fix_bold_spacing, h, hc, hw]

/-- Claim C5, witness: the per-file contract at a concrete changed file. -/
theorem fix_bold_spacing_writes_iff_changed_witness :
    (Event.wrote sampleA.path ∈ (fix_bold_spacing sampleA).events ↔
      fixBold sampleA.content ≠ sampleA.content)
    ∧ (fixBold sampleA.content = sampleA.content →
        (fix_bold_spacing sampleA).disk = sampleA.content
        ∧ Event.wrote sampleA.path ∉ (fix_bold_spacing sampleA).events)
    ∧ (fixBold sampleA.content ≠ sampleA.content → sampleA.writeOk = true →
        (fix_bold_spacing sampleA).disk = fixBold sampleA.content) :=
  fix_bold_spacing_writes_iff_changed sampleA rfl

/-- Loop counter characterization: under error-free I/O for every
non-skipped file, the loop counts exactly the non-skipped files whose
transformed content differs from the original. -/
theorem mainLoop_count (files : List File)
    (h : ∀ f ∈ files, skipFile f = false → f.readOk = true ∧ f.writeOk = true) :
    (mainLoop files).1 =
      (files.filter
        (fun f => !skipFile f && (fixBold f.content != f.content))).length := by
  induction files with
  | nil => rfl
  | cons f fs ih =>
    have hf := h f (List.mem_cons_self f fs)
    have hfs : ∀ g ∈ fs, skipFile g = false → g.readOk = true ∧ g.writeOk = true :=
      fun g hg => h g (List.mem_cons_of_mem f hg)
    rw [mainLoop]
    dsimp only
    rw [ih hfs, List.filter_cons]
    cases hsk : skipFile f with
    | true => simp [runFile, hsk]
    | false =>
      obtain ⟨hr, hw⟩ := hf hsk
      by_cases hc : fixBold f.content = f.content
      · simp [runFile, fix_bold_spacing, hsk, hr, hc]
      · simp [runFile, fix_bold_spacing, hsk, hr, hw, hc, Nat.add_comm]

/-- Claim C6: in an error-free run, the reported fixed count — both the
returned counter and the number in the summary line — equals exactly the
number of processed (non-skipped) files whose post-transformation content
differs from their pre-transformation content. -/
theorem main_run_count_eq_changed (files : List File)
    (h : ∀ f ∈ files, skipFile f = false → f.readOk = true ∧ f.writeOk = true) :
    (main_run files).1 =
      (files.filter
        (fun f => !skipFile f && (fixBold f.content != f.content))).length
    ∧ Event.summary
        ((files.filter
          (fun f => !skipFile f && (fixBold f.content != f.content))).length)
        ∈ (main_run files).2 := by
  have hm := mainLoop_count files h
  constructor
  · exact hm
  · unfold main_run
    rw [← hm]
    simp

/-- Claim C6, witness: a run over a changed file, a clean file and a skipped
vendored file reports exactly one fix. -/
theorem main_run_count_eq_changed_witness :
    (main_run [sampleA, sampleB, sampleSkip]).1 =
      (([sampleA, sampleB, sampleSkip]).filter
        (fun f => !skipFile f && (fixBold f.content != f.content))).length
    ∧ Event.summary
        ((([sampleA, sampleB, sampleSkip]).filter
          (fun f => !skipFile f && (fixBold f.content != f.content))).length)
        ∈ (main_run [sampleA, sampleB, sampleSkip]).2 :=
  main_run_count_eq_changed [sampleA, sampleB, sampleSkip] (by decide)

/-- Claim C7: a file whose path contains `node_modules` as a path component
is never touched by the run: the loop produces no event for it — it is
neither opened nor written — contributes nothing to the counter, and its
content on disk is unchanged, regardless of that content. -/
theorem runFile_never_touches_node_modules_component (f : File)
    (h : ∃ pre post, f.path = pre ++ nodeModules ++ post ∧
        (pre = [] ∨ ∃ pre', pre = pre' ++ ['/']) ∧
        (post = [] ∨ ∃ post', post = '/' :: post')) :
    runFile f = (0, []) ∧ finalContent f = f.content := by
  obtain ⟨pre, post, hp, -, -⟩ := h
  have hs : skipFile f = true := by
    unfold skipFile
    rw [hp, List.append_assoc]
    exact containsSub_of_infix pre nodeModules post
  exact ⟨by simp [runFile, hs], by simp [finalContent, hs]⟩

/-- Claim C7, witness: a defective file under `node_modules/pkg/` is left
alone. -/
theorem runFile_never_touches_node_modules_component_witness :
    runFile sampleSkip = (0, []) ∧ finalContent sampleSkip = sampleSkip.content :=
  runFile_never_touches_node_modules_component sampleSkip
    ⟨[], "/pkg/readme.md".data, by decide, Or.inl rfl,
      Or.inr ⟨"pkg/readme.md".data, by decide⟩⟩

/-- Claim C8: a per-file error — a failing read, or a failing write on a
file that needed fixing — is caught inside the per-file step: the step emits
the `Error:` diagnostic naming the file, the file is attempted exactly once,
it contributes nothing to the counter, and the loop still processes the
remaining files exactly as it would have (no single bad file aborts the
run). -/
theorem per_file_error_caught_and_loop_continues (f : File) (fs : List File)
    (hskip : skipFile f = false)
    (herr : f.readOk = false ∨
      (f.readOk = true ∧ f.writeOk = false ∧ fixBold f.content ≠ f.content)) :
    Event.errorMsg f.path ∈ (runFile f).2
    ∧ (runFile f).2.count (Event.attempt f.path) = 1
    ∧ (mainLoop (f :: fs)).1 = (mainLoop fs).1
    ∧ (mainLoop (f :: fs)).2 = (runFile f).2 ++ (mainLoop fs).2 := by
  have hout : (fix_bold_spacing f).fixedFlag = false
      ∧ Event.errorMsg f.path ∈ (fix_bold_spacing f).events
      ∧ (fix_bold_spacing f).events.count (Event.attempt f.path) = 1 := by
    rcases herr with hr | ⟨hr, hw, hc⟩
    · simp [fix_bold_spacing, hr, List.count_cons, List.count_nil]
    · simp [fix_bold_spacing, hr, hw, hc, List.count_cons, List.count_nil]
  have hrun : runFile f = (0, (fix_bold_spacing f).events) := by
    simp [runFile, hskip, hout.1]
  refine ⟨?_, ?_, ?_, ?_⟩
  · rw [hrun]; exact hout.2.1
  · rw [hrun]; exact hout.2.2
  · rw [mainLoop]; dsimp only; rw [hrun]; simp
  · rw [mainLoop]

/-- Claim C8, witness: an unreadable file is diagnosed and the loop
continues over a following healthy file. -/
theorem per_file_error_caught_and_loop_continues_witness :
    Event.errorMsg sampleReadErr.path ∈ (runFile sampleReadErr).2
    ∧ (runFile sampleReadErr).2.count (Event.attempt sampleReadErr.path) = 1
    ∧ (mainLoop [sampleReadErr, sampleA]).1 = (mainLoop [sampleA]).1
    ∧ (mainLoop [sampleReadErr, sampleA]).2 =
        (runFile sampleReadErr).2 ++ (mainLoop [sampleA]).2 :=
  per_file_error_caught_and_loop_continues sampleReadErr [sampleA]
    (by decide) (Or.inl rfl)

/-- Claim C9: the exclusion test is a plain substring match on the whole
path string: any path containing the characters `node_modules` anywhere —
also inside a longer directory name — is skipped entirely: no event, no
count, no change to its content. -/
theorem runFile_skips_any_substring_match (f : File)
    (h : containsSub nodeModules f.path = true) :
    runFile f = (0, []) ∧ finalContent f = f.content := by
  have hs : skipFile f = true := h
  exact ⟨by simp [runFile, hs], by simp [finalContent, hs]⟩

/-- Claim C9, witness: a defective file under `my_node_modules_backup/` is
skipped even though `node_modules` is not one of its path components. -/
theorem runFile_skips_any_substring_match_witness :
    containsSub nodeModules sampleBackup.path = true
    ∧ (runFile sampleBackup = (0, [])
        ∧ finalContent sampleBackup = sampleBackup.content) :=
  ⟨by decide, runFile_skips_any_substring_match sampleBackup (by decide)⟩

/-- Claim C10: when a file's processing raises during the write — after the
transformed text was found to differ — the per-file step still returns the
not-fixed result: the file adds nothing to the fixed count and no `✅`
confirmation is printed for it, even though the disk may already hold the
partially written text. -/
theorem write_error_file_not_counted (f : File)
    (hr : f.readOk = true) (hw : f.writeOk = false)
    (hc : fixBold f.content ≠ f.content) :
    (fix_bold_spacing f).fixedFlag = false
    ∧ (runFile f).1 = 0
    ∧ Event.fixedMsg f.path ∉ (runFile f).2
    ∧ (fix_bold_spacing f).disk = f.failContent := by
  have h1 : (fix_bold_spacing f).fixedFlag = false := by
    simp [fix_bold_spacing, hr, hw, hc]
  have h2 : (fix_bold_spacing f).disk = f.failContent := by
    simp [fix_bold_spacing, hr, hw, hc]
  have h3 : Event.fixedMsg f.path ∉ (fix_bold_spacing f).events := by
    simp [fix_bold_spacing, hr, hw, hc]
  refine ⟨h1, ?_, ?_, h2⟩
  · cases hsk : skipFile f with
    | true => simp [runFile, hsk]
    | false => simp [runFile, hsk, h1]
  · cases hsk : skipFile f with
    | true => simp [runFile, hsk]
    | false => simp [runFile, hsk, h1]; exact h3

/-- Claim C10, witness: a file left truncated by a failing write is not
counted and gets no confirmation. -/
theorem write_error_file_not_counted_witness :
    (fix_bold_spacing sampleWriteErr).fixedFlag = false
    ∧ (runFile sampleWriteErr).1 = 0
    ∧ Event.fixedMsg sampleWriteErr.path ∉ (runFile sampleWriteErr).2
    ∧ (fix_bold_spacing sampleWriteErr).disk = sampleWriteErr.failContent :=
  write_error_file_not_counted sampleWriteErr rfl rfl (by decide)
